import Mathlib

/-!
Verification development for the configurable web-scraper engine
(`streamlit_app.py`).  The Python source is shallowly embedded: pure string
manipulation is translated character by character, the per-field extraction
loop and the pagination state machine become structural recursions, and the
external collaborators (Selenium driver, BeautifulSoup document, the `re`
module) are abstracted as explicit data or function parameters recording the
outcomes the code observes.
-/

/-- Python strings are modelled as lists of characters. -/
abbrev Str := List Char

/-- Coerce a Lean string literal to the character-list model. -/
def str (s : String) : Str := s.data

/-- The fixed set of bare section-label keywords (`SECTION_KEYWORDS` in the
source); a cleaned value equal (case-insensitively) to one of these is
rejected. -/
def SECTION_KEYWORDS : List Str :=
  [str "challenge", str "solution", str "headquarters", str "industry",
   str "integrations", str "share", str "results", str "the", str "about",
   str "at", str "group", str "financial"]

/-- Whitespace characters stripped by Python's `str.strip()` (ASCII range). -/
def isPyWs (c : Char) : Bool :=
  c = ' ' || c = '\t' || c = '\n' || c = '\r' || c = '\x0b' || c = '\x0c'

/-- The quote characters stripped by `strip('“”"\'')` in `clean_text`. -/
def isQuoteChar (c : Char) : Bool :=
  c = '“' || c = '”' || c = '"' || c = '\''

/-- Strip characters satisfying `p` from the right end of a list. -/
def stripRight (p : Char → Bool) (l : Str) : Str :=
  (l.reverse.dropWhile p).reverse

/-- Python `str.strip(chars)`: drop characters satisfying `p` from both
ends. -/
def pyStrip (p : Char → Bool) (l : Str) : Str :=
  stripRight p (l.dropWhile p)

/-- Fuel-driven scan implementing Python `str.replace(pat, '')`: delete
non-overlapping occurrences of `pat`, scanning left to right.  The fuel is
instantiated with the length of the subject string, which bounds the number
of scan steps. -/
def replaceFuel (pat : Str) : Nat → Str → Str
  | 0, s => s
  | Nat.succ n, s =>
    match s with
    | [] => []
    | c :: cs =>
      if pat.isPrefixOf (c :: cs) then replaceFuel pat n ((c :: cs).drop pat.length)
      else c :: replaceFuel pat n cs

/-- Python `s.replace(pat, '')` for a non-empty pattern. -/
def pyReplace (pat : Str) (s : Str) : Str := replaceFuel pat s.length s

/-- The boilerplate phrase removed by `clean_text`. -/
def PHRASE : Str := str "(Opens in a new tab)"

/-- `clean_text` from the source: `None`/empty input yields `None`; otherwise
remove the boilerplate phrase, strip whitespace, strip straight and curly
quote characters, and strip whitespace again. -/
def clean_text : Option Str → Option Str
  | none => none
  | some t =>
    if t = [] then none
    else some (pyStrip isPyWs (pyStrip isQuoteChar (pyStrip isPyWs (pyReplace PHRASE t))))

/-- Python `str.lower()` restricted to the ASCII behaviour the keyword set
needs. -/
def pyLower (s : Str) : Str := s.map Char.toLower

/-- One step of Python `str.title()`: a letter is uppercased when the
previous character is not a letter, lowercased otherwise. -/
def pyTitleGo : Bool → Str → Str
  | _, [] => []
  | prevAlpha, c :: cs =>
    (if c.isAlpha then (if prevAlpha then c.toLower else c.toUpper) else c) ::
      pyTitleGo c.isAlpha cs

/-- Python `str.title()` (ASCII behaviour). -/
def pyTitle (s : Str) : Str := pyTitleGo false s

/-- `'-'` to `' '` replacement used on the captured company-name segment. -/
def dashToSpace (s : Str) : Str := s.map fun c => if c = '-' then ' ' else c

example : clean_text (some (str "  “hello”  ")) = some (str "hello") := by decide

example :
    clean_text (some (str "x (Opens in a new tab) y")) = some (str "x  y") := by decide

example : pyTitle (dashToSpace (str "acme-corp")) = str "Acme Corp" := by decide

/-- The head of a `dropWhile` residue fails the predicate. -/
theorem dropWhile_head_false {p : Char → Bool} {l : Str} {a : Char} {t : Str}
    (h : l.dropWhile p = a :: t) : p a = false := by
  have hh := List.head?_dropWhile_not p l
  rw [h] at hh
  simpa using hh

/-- Stripping from the left twice is the same as stripping once. -/
theorem dropWhile_idem (p : Char → Bool) (l : Str) :
    (l.dropWhile p).dropWhile p = l.dropWhile p := by
  cases h : l.dropWhile p with
  | nil => rfl
  | cons a t =>
    have := dropWhile_head_false h
    simp [List.dropWhile_cons, this]

/-- A list equal to its own left strip has a head failing the predicate. -/
theorem dropWhile_self_head {p : Char → Bool} {a : Char} {t : Str}
    (h : (a :: t).dropWhile p = a :: t) : p a = false := by
  by_contra hp
  have hp' : p a = true := by
    cases hpa : p a with
    | false => exact absurd hpa hp
    | true => rfl
  rw [List.dropWhile_cons_of_pos hp'] at h
  have hle : (t.dropWhile p).length ≤ t.length :=
    (List.dropWhile_suffix p).sublist.length_le
  rw [h] at hle
  simp at hle

/-- The right strip produces a prefix of its input. -/
theorem stripRight_prefix (p : Char → Bool) (l : Str) : stripRight p l <+: l := by
  have hs : l.reverse.dropWhile p <:+ l.reverse := List.dropWhile_suffix p
  have : (stripRight p l).reverse <:+ l.reverse := by
    simpa [stripRight] using hs
  exact List.reverse_suffix.mp this

/-- If a list equals its own left strip, its right strip also equals its own
left strip. -/
theorem dropWhile_stripRight (p : Char → Bool) (l : Str) (h : l.dropWhile p = l) :
    (stripRight p l).dropWhile p = stripRight p l := by
  cases hl : stripRight p l with
  | nil => rfl
  | cons a t =>
    obtain ⟨r, hr⟩ := stripRight_prefix p l
    rw [hl] at hr
    have hla : l = a :: (t ++ r) := by rw [← hr]; rfl
    rw [hla] at h
    have hpa := dropWhile_self_head h
    simp [List.dropWhile_cons, hpa]

/-- Stripping twice from the right is the same as stripping once. -/
theorem stripRight_idem (p : Char → Bool) (l : Str) :
    stripRight p (stripRight p l) = stripRight p l := by
  simp [stripRight, dropWhile_idem]

/-- `pyStrip` is idempotent. -/
theorem pyStrip_idem (p : Char → Bool) (l : Str) :
    pyStrip p (pyStrip p l) = pyStrip p l := by
  unfold pyStrip
  rw [dropWhile_stripRight p _ (dropWhile_idem p l), stripRight_idem]

/-- C3, counterexample: `clean_text` is not idempotent.  Removing an inner
occurrence of the boilerplate phrase can create a fresh occurrence that only a
second pass removes: cleaning this input once yields the phrase followed by
`x`; cleaning again yields just `x`. -/
theorem c3_clean_text_not_idem :
    clean_text (clean_text (some (str "(Opens in a(Opens in a new tab) new tab)x"))) ≠
      clean_text (some (str "(Opens in a(Opens in a new tab) new tab)x")) := by decide

/-- C3, amended: `clean_text` is idempotent at every input whose cleaned
value is either absent or is non-empty, contains no occurrence of the
boilerplate phrase, and carries no leading or trailing quote character. -/
theorem c3_clean_text_idem_amended (s r : Str)
    (hc : clean_text (some s) = some r) (hr : r ≠ [])
    (hph : pyReplace PHRASE r = r) (hq : pyStrip isQuoteChar r = r) :
    clean_text (some r) = some r := by
  have hws : pyStrip isPyWs r = r := by
    by_cases hs : s = []
    · rw [hs] at hc
      simp [clean_text] at hc
    · have hc' : (if s = [] then (none : Option Str) else
          some (pyStrip isPyWs (pyStrip isQuoteChar (pyStrip isPyWs (pyReplace PHRASE s))))) =
            some r := hc
      rw [if_neg hs] at hc'
      have hrv := Option.some.inj hc'
      rw [← hrv, pyStrip_idem]
  show (if r = [] then (none : Option Str) else
      some (pyStrip isPyWs (pyStrip isQuoteChar (pyStrip isPyWs (pyReplace PHRASE r))))) = some r
  rw [if_neg hr, hph, hws, hq, hws]

/-- C3 witness: the amended idempotence theorem applied at a concrete
input. -/
theorem c3_witness : clean_text (some (str "hello")) = some (str "hello") :=
  c3_clean_text_idem_amended (str "  hello  ") (str "hello")
    (by decide) (by decide) (by decide) (by decide)

/-- Python truthiness of an optional string (`None` and `''` are falsy). -/
def pyTruthyS : Option Str → Bool
  | some (_ :: _) => true
  | _ => false

/-- Python truthiness of an optional integer (`None` and `0` are falsy). -/
def pyTruthyI : Option Int → Bool
  | some n => n != 0
  | none => false

/-- One entry of a field's ordered rule list (`selector_config` in the
source), with the keys the engine reads and their source defaults. -/
structure SelectorConfig where
  selector : Option Str
  method : Option Str
  key_text : Option Str
  limit : Option Int
  min_length : Int
  confidence : Int
deriving DecidableEq, Repr

/-- The value a field name maps to in `data_selectors`: either a
URL-derivation mapping (a dict with `source = "url"` and an optional
`regex`), or an ordered rule list. -/
inductive FieldSel where
  | urlSource (regex : Option Str)
  | ruleList (rules : List SelectorConfig)
deriving DecidableEq, Repr

/-- The external collaborators of the assembler, abstracted: BeautifulSoup
element search (`findAll` for the `find_all(tag, string=...)` branch,
`select` for CSS selection, elements identified by opaque ids), extraction
method application (including the methods that also read the whole
document), and `re.search` on the item URL (`research regex url` returns
`Except.error` for an invalid pattern, `Except.ok none` for no match, and
`Except.ok (some g)` for a match whose first captured group is `g`; patterns
without a first group are outside the model).  `Except.error` marks the
places where the Python code observes an exception. -/
structure ExtractEnv where
  findAll : Str → Str → Except Unit (List Nat)
  select : Str → Option Int → Except Unit (List Nat)
  apply : Str → Nat → Except Unit (Option Str)
  research : Str → Str → Except Unit (Option Str)

/-- The names in the `EXTRACTION_METHODS` registry. -/
def knownMethods : List Str :=
  [str "text", str "first_p_before_heading_strict", str "next_p_after_title_strict",
   str "text_after_key_h3_rte", str "text_after_strong_in_separate_p",
   str "parent_text_after_strong", str "text_after_strong_spacey_rte"]

/-- Tag searched by the `key_text` branch: `h3` for the labeled-heading
method, the rule's own selector for the next-paragraph method, `strong`
otherwise. -/
def tagNameFor (mname sel : Str) : Str :=
  if mname = str "text_after_key_h3_rte" then str "h3"
  else if mname = str "next_p_after_title_strict" then sel
  else str "strong"

/-- Element search for one rule (source lines 199-209): the `key_text`
branch uses `find_all`, otherwise CSS selection with an optional limit; an
exception or an empty result means no element (`continue`). -/
def findRuleElement (env : ExtractEnv) (sc : SelectorConfig) (sel mname : Str) :
    Option Nat :=
  let r : Except Unit (List Nat) :=
    if pyTruthyS sc.key_text then env.findAll (tagNameFor mname sel) (sc.key_text.getD [])
    else if pyTruthyI sc.limit then env.select sel sc.limit
    else env.select sel none
  match r with
  | .error _ => none
  | .ok [] => none
  | .ok (e :: _) => some e

/-- Acceptance check on a cleaned value (source line 217): non-empty, at
least `min_length` characters, and not a bare section keyword. -/
def acceptedValue (minLen : Int) (cleaned : Option Str) : Option Str :=
  match cleaned with
  | none => none
  | some v =>
    if v ≠ [] ∧ minLen ≤ (v.length : Int) ∧ pyLower v ∉ SECTION_KEYWORDS then some v
    else none

/-- Outcome of evaluating a single rule: move to the next rule, or accept a
cleaned value with the rule's confidence and the matched element. -/
inductive RuleStep where
  | next
  | accept (v : Str) (conf : Int) (elem : Nat)
deriving DecidableEq, Repr

/-- Evaluate one rule for one field (one iteration of the loop at source
lines 189-221).  `titleElem` is the element remembered from the `title`
field for the special `title_element` selector. -/
def tryRule (env : ExtractEnv) (titleElem : Option Nat) (sc : SelectorConfig) :
    RuleStep :=
  if ¬ pyTruthyS sc.selector ∨ ¬ pyTruthyS sc.method then .next
  else
    let sel := sc.selector.getD []
    let mname := sc.method.getD []
    let elemOpt : Option Nat :=
      if sel = str "title_element" then titleElem
      else findRuleElement env sc sel mname
    match elemOpt with
    | none => .next
    | some e =>
      if mname ∈ knownMethods then
        match env.apply mname e with
        | .error _ => .next
        | .ok raw =>
          match acceptedValue sc.min_length (clean_text raw) with
          | none => .next
          | some v => .accept v sc.confidence e
      else .next

/-- The rule loop for one field: first-match-wins over the ordered rule
list; on acceptance the loop stops, recording `max 0 confidence` (the
running `highest_confidence` starts at 0) and, for the `title` field, the
matched element.  Returns (field value, confidence contribution, updated
title element). -/
def evalField (env : ExtractEnv) (field : Str) :
    List SelectorConfig → Option Nat → Option Str × Int × Option Nat
  | [], titleElem => (none, 0, titleElem)
  | sc :: rest, titleElem =>
    match tryRule env titleElem sc with
    | .next => evalField env field rest titleElem
    | .accept v conf e =>
      (some v, max 0 conf, if field = str "title" then some e else titleElem)

/-- A record (`story_data`): a Python dict from field name to extracted
string or `None`, in insertion order. -/
abbrev Rec := List (Str × Option Str)

/-- Python dict assignment: replace in place if the key exists, else append. -/
def dictSet : Rec → Str → Option Str → Rec
  | [], k, v => [(k, v)]
  | (k', v') :: t, k, v =>
    if k' = k then (k, v) :: t else (k', v') :: dictSet t k v

/-- Python dict read: the value at a key, if present. -/
def dictGet (r : Rec) (k : Str) : Option (Option Str) :=
  (r.find? (fun e => e.1 = k)).map (fun e => e.2)

/-- Process one configured field (source lines 181-224).  Returns
`Except.error` where the Python code raises: after an invalid
`company_name` regex is caught and logged, `if match` reads the unbound
local `match` and raises `NameError`; and for the field `company_name`
mapped to a rule list, the guard at line 183 calls `.get` on a list,
raising `AttributeError`.  Otherwise returns (entry, points delta, updated
title element), where `entry = none` means the field is not written to the
record at all (a non-list, non-`company_name`-URL selector value is
skipped with a warning). -/
def processField (env : ExtractEnv) (url : Str) (titleElem : Option Nat)
    (field : Str) (sel : FieldSel) :
    Except Unit (Option (Option Str) × Int × Option Nat) :=
  match sel with
  | .urlSource regex =>
    if field = str "company_name" then
      match env.research (regex.getD []) url with
      | .error _ => .error ()
      | .ok m =>
        match m with
        | some (c :: g) =>
          .ok (some (some (pyTitle (dashToSpace (c :: g)))), 2, titleElem)
        | _ => .ok (some none, 0, titleElem)
    else .ok (none, 0, titleElem)
  | .ruleList rules =>
    if field = str "company_name" then .error ()
    else
      let (v, hc, t') := evalField env field rules titleElem
      .ok (some v, (match v with | some _ => hc | none => 0), t')

/-- Fold `processField` over the configured fields in order, threading the
record under construction, the title element, and summing confidence
points. -/
def scrapeFields (env : ExtractEnv) (url : Str) :
    List (Str × FieldSel) → Option Nat → Rec → Except Unit (Rec × Int)
  | [], _, acc => .ok (acc, 0)
  | (f, s) :: rest, titleElem, acc =>
    match processField env url titleElem f s with
    | .error e => .error e
    | .ok (entry, pts, t') =>
      let acc' := match entry with | none => acc | some v => dictSet acc f v
      match scrapeFields env url rest t' acc' with
      | .error e => .error e
      | .ok (r, p) => .ok (r, pts + p)

/-- Confidence classification (source lines 225-228). -/
def confidenceOf (points high medium : Int) : Str × Str :=
  if points ≥ high then (str "High", str "No")
  else if points ≥ medium then (str "Medium", str "Yes")
  else (str "Low", str "Yes")

/-- The configuration value, restricted to the keys the engine reads, with
threshold and regex defaults resolved at the call sites exactly as the
source's `.get` chains do. -/
structure Config where
  base_url : Str
  max_pages_to_scrape : Nat
  pagination_type : Str
  next_page_button_selector : Str
  data_selectors : List (Str × FieldSel)
  high : Int
  medium : Int
  max_retries : Nat
  output_columns : List Str

/-- The Record Assembler (`scrape_story_details`): navigation failure
(timeout or driver error, `nav = false`) returns `Option.none` (the item is
absent this pass); otherwise the fields are evaluated in order and the
record is assembled with the source URL first and the two derived
confidence entries last.  `Except.error` marks the uncaught `NameError`
described at `processField`. -/
def scrape_story_details (env : ExtractEnv) (nav : Bool) (url : Str)
    (cfg : Config) : Except Unit (Option Rec) :=
  if ¬ nav then .ok none
  else
    match scrapeFields env url cfg.data_selectors none [(str "url", some url)] with
    | .error e => .error e
    | .ok (r, pts) =>
      let sn := confidenceOf pts cfg.high cfg.medium
      .ok (some (dictSet (dictSet r (str "confidence_score") (some sn.1))
        (str "needs_verification") (some sn.2)))

/-- Reading a key just written returns the written value. -/
theorem dictGet_dictSet_self (r : Rec) (k : Str) (v : Option Str) :
    dictGet (dictSet r k v) k = some v := by
  induction r with
  | nil =>
    simp only [dictSet, dictGet]
    rw [List.find?_cons_of_pos _ (by simp)]
    rfl
  | cons e t ih =>
    by_cases h : e.1 = k
    · simp only [dictSet]
      rw [if_pos h]
      simp only [dictGet]
      rw [List.find?_cons_of_pos _ (by simp)]
      rfl
    · simp only [dictSet]
      rw [if_neg h]
      simp only [dictGet]
      rw [List.find?_cons_of_neg _ (by simpa using h)]
      exact ih

/-- Writing one key does not change reads of another. -/
theorem dictGet_dictSet_ne (r : Rec) (k k' : Str) (v : Option Str)
    (h : k' ≠ k) : dictGet (dictSet r k v) k' = dictGet r k' := by
  induction r with
  | nil =>
    simp only [dictSet, dictGet]
    rw [List.find?_cons_of_neg _ (by simpa using Ne.symm h)]
  | cons e t ih =>
    by_cases he : e.1 = k
    · simp only [dictSet]
      rw [if_pos he]
      simp only [dictGet]
      rw [List.find?_cons_of_neg _ (by simpa using Ne.symm h),
        List.find?_cons_of_neg _ (by simp only [he]; simpa using Ne.symm h)]
    · simp only [dictSet]
      rw [if_neg he]
      by_cases he' : e.1 = k'
      · simp only [dictGet]
        rw [List.find?_cons_of_pos _ (by simpa using he'),
          List.find?_cons_of_pos _ (by simpa using he')]
      · simp only [dictGet]
        rw [List.find?_cons_of_neg _ (by simpa using he'),
          List.find?_cons_of_neg _ (by simpa using he')]
        exact ih

/-- C1 as stated: the three score biconditionals and the verification-flag
biconditional, for arbitrary thresholds. -/
abbrev claimC1 (p high medium : Int) : Prop :=
  ((confidenceOf p high medium).1 = str "High" ↔ high ≤ p) ∧
  ((confidenceOf p high medium).1 = str "Medium" ↔ medium ≤ p ∧ p < high) ∧
  ((confidenceOf p high medium).1 = str "Low" ↔ p < medium) ∧
  ((confidenceOf p high medium).2 = str "Yes" ↔ (confidenceOf p high medium).1 ≠ str "High")

/-- C1, counterexample: with thresholds high = 4 and medium = 7 (medium
above high) and 5 accumulated points, the code classifies High, while the
claimed biconditional `score = Low iff p < medium` demands Low. -/
theorem c1_confidence_cex : ¬ claimC1 5 4 7 := by decide

/-- C1, amended: assuming the configured thresholds satisfy
`medium ≤ high`, every assembled record's `confidence_score` is High iff
the accumulated points reach `high`, Medium iff they reach `medium` but not
`high`, Low iff they fall below `medium`, and `needs_verification` is Yes
iff the score is not High. -/
theorem c1_confidence_amended (env : ExtractEnv) (url : Str) (cfg : Config)
    (r0 : Rec) (p : Int) (hmh : cfg.medium ≤ cfg.high)
    (hsf : scrapeFields env url cfg.data_selectors none [(str "url", some url)] =
      .ok (r0, p)) :
    ∃ re, scrape_story_details env true url cfg = .ok (some re) ∧
      (dictGet re (str "confidence_score") = some (some (str "High")) ↔ cfg.high ≤ p) ∧
      (dictGet re (str "confidence_score") = some (some (str "Medium")) ↔
        cfg.medium ≤ p ∧ p < cfg.high) ∧
      (dictGet re (str "confidence_score") = some (some (str "Low")) ↔ p < cfg.medium) ∧
      (dictGet re (str "needs_verification") = some (some (str "Yes")) ↔
        dictGet re (str "confidence_score") ≠ some (some (str "High"))) := by
  refine ⟨dictSet (dictSet r0 (str "confidence_score")
      (some (confidenceOf p cfg.high cfg.medium).1)) (str "needs_verification")
      (some (confidenceOf p cfg.high cfg.medium).2), ?_, ?_⟩
  · simp [scrape_story_details, hsf]
  have hcs : dictGet (dictSet (dictSet r0 (str "confidence_score")
      (some (confidenceOf p cfg.high cfg.medium).1)) (str "needs_verification")
      (some (confidenceOf p cfg.high cfg.medium).2)) (str "confidence_score") =
      some (some (confidenceOf p cfg.high cfg.medium).1) := by
    rw [dictGet_dictSet_ne _ _ _ _ (by decide), dictGet_dictSet_self]
  have hnv : dictGet (dictSet (dictSet r0 (str "confidence_score")
      (some (confidenceOf p cfg.high cfg.medium).1)) (str "needs_verification")
      (some (confidenceOf p cfg.high cfg.medium).2)) (str "needs_verification") =
      some (some (confidenceOf p cfg.high cfg.medium).2) :=
    dictGet_dictSet_self _ _ _
  by_cases h1 : cfg.high ≤ p
  · have hc : confidenceOf p cfg.high cfg.medium = (str "High", str "No") := by
      unfold confidenceOf
      rw [if_pos (by omega)]
    rw [hc] at hcs hnv ⊢
    refine ⟨iff_of_true (by rw [hcs]) h1, ?_, ?_, ?_⟩
    · exact iff_of_false (by rw [hcs]; decide) (by omega)
    · exact iff_of_false (by rw [hcs]; decide) (by omega)
    · exact iff_of_false (by rw [hnv]; decide) (by rw [hcs]; simp)
  · by_cases h2 : cfg.medium ≤ p
    · have hc : confidenceOf p cfg.high cfg.medium = (str "Medium", str "Yes") := by
        unfold confidenceOf
        rw [if_neg (by omega), if_pos (by omega)]
      rw [hc] at hcs hnv ⊢
      refine ⟨iff_of_false (by rw [hcs]; decide) (by omega), ?_, ?_, ?_⟩
      · exact iff_of_true (by rw [hcs]) ⟨h2, by omega⟩
      · exact iff_of_false (by rw [hcs]; decide) (by omega)
      · exact iff_of_true (by rw [hnv]) (by rw [hcs]; decide)
    · have hc : confidenceOf p cfg.high cfg.medium = (str "Low", str "Yes") := by
        unfold confidenceOf
        rw [if_neg (by omega), if_neg (by omega)]
      rw [hc] at hcs hnv ⊢
      refine ⟨iff_of_false (by rw [hcs]; decide) (by omega), ?_, ?_, ?_⟩
      · exact iff_of_false (by rw [hcs]; decide) (by omega)
      · exact iff_of_true (by rw [hcs]) (by omega)
      · exact iff_of_true (by rw [hnv]) (by rw [hcs]; decide)

/-- An environment in which every external lookup comes back empty. -/
def envEmpty : ExtractEnv :=
  ⟨fun _ _ => .ok [], fun _ _ => .ok [], fun _ _ => .ok none, fun _ _ => .ok none⟩

/-- A minimal configuration with no data selectors and default thresholds. -/
def cfgPlain : Config :=
  ⟨str "https://www.example.com/stories/", 1, str "none", [], [], 7, 4, 3,
   [str "url"]⟩

/-- C1 witness: the amended theorem applied at a concrete configuration
(zero points, thresholds 7/4, hence Low/Yes). -/
theorem c1_witness :
    ∃ re, scrape_story_details envEmpty true (str "u") cfgPlain = .ok (some re) ∧
      (dictGet re (str "confidence_score") = some (some (str "High")) ↔ (7 : Int) ≤ 0) ∧
      (dictGet re (str "confidence_score") = some (some (str "Medium")) ↔
        (4 : Int) ≤ 0 ∧ (0 : Int) < 7) ∧
      (dictGet re (str "confidence_score") = some (some (str "Low")) ↔ (0 : Int) < 4) ∧
      (dictGet re (str "needs_verification") = some (some (str "Yes")) ↔
        dictGet re (str "confidence_score") ≠ some (some (str "High"))) :=
  c1_confidence_amended envEmpty (str "u") cfgPlain
    [(str "url", some (str "u"))] 0 (by decide) rfl

/-- Rules that all step to `next` leave the field absent with zero points
and an unchanged title element. -/
theorem evalField_all_next (env : ExtractEnv) (field : Str) (t : Option Nat)
    (rules : List SelectorConfig) (h : ∀ r ∈ rules, tryRule env t r = .next) :
    evalField env field rules t = (none, 0, t) := by
  induction rules with
  | nil => rfl
  | cons sc rest ih =>
    have hsc := h sc (by simp)
    simp only [evalField, hsc]
    exact ih (fun r hr => h r (by simp [hr]))

/-- A prefix of rejected rules does not affect the field's evaluation. -/
theorem evalField_pre_next (env : ExtractEnv) (field : Str) (t : Option Nat)
    (pre rest : List SelectorConfig) (h : ∀ r ∈ pre, tryRule env t r = .next) :
    evalField env field (pre ++ rest) t = evalField env field rest t := by
  induction pre with
  | nil => rfl
  | cons sc pre' ih =>
    have hsc := h sc (by simp)
    simp only [List.cons_append, evalField, hsc]
    exact ih (fun r hr => h r (by simp [hr]))

/-- C2 as stated: for every field with an ordered rule list whose rules
are all rejected, the field is recorded as absent with zero points. -/
def claimC2 : Prop :=
  ∀ (env : ExtractEnv) (url field : Str) (t : Option Nat)
    (rules : List SelectorConfig),
    (∀ r ∈ rules, tryRule env t r = .next) →
    processField env url t field (.ruleList rules) = .ok (some none, 0, t)

/-- C2, counterexample: the claim quantifies over every field with a rule
list, but the field `company_name` configured with a rule list makes the
guard at source line 183 call `.get` on a list, raising `AttributeError`
and aborting the run instead of recording the field. -/
theorem c2_first_match_cex : ¬ claimC2 := by
  intro h
  have hc := h envEmpty (str "u") (str "company_name") none [] (by simp)
  rw [show processField envEmpty (str "u") none (str "company_name")
      (.ruleList []) = .error () from rfl] at hc
  simp at hc

/-- C2, amended: for every field other than `company_name`, rule evaluation
is first-match-wins.  If every rule before `sc` is rejected and `sc` is
accepted with cleaned value `v` and (non-negative) confidence weight `c`,
then the field's value is `v`, exactly `c` points are contributed, the
rules after `sc` are never consulted (the result is the same for every
tail), and a field whose rules are all rejected is recorded as absent with
zero points.  (`company_name` with a rule list instead raises at line 183
and aborts the run.) -/
theorem c2_first_match_wins (env : ExtractEnv) (field : Str) (t : Option Nat)
    (pre post : List SelectorConfig) (sc : SelectorConfig) (v : Str) (c : Int)
    (e : Nat) (hpre : ∀ r ∈ pre, tryRule env t r = .next)
    (hacc : tryRule env t sc = .accept v c e) (hw : 0 ≤ c)
    (hfield : field ≠ str "company_name") :
    evalField env field (pre ++ sc :: post) t =
      (some v, c, if field = str "title" then some e else t) ∧
    (∀ post', evalField env field (pre ++ sc :: post') t =
      evalField env field (pre ++ sc :: post) t) ∧
    (∀ url, processField env url t field (.ruleList (pre ++ sc :: post)) =
      .ok (some (some v), c, if field = str "title" then some e else t)) ∧
    (∀ url rules, (∀ r ∈ rules, tryRule env t r = .next) →
      processField env url t field (.ruleList rules) = .ok (some none, 0, t)) := by
  have hmax : max 0 c = c := max_eq_right hw
  have heval : evalField env field (pre ++ sc :: post) t =
      (some v, c, if field = str "title" then some e else t) := by
    rw [evalField_pre_next env field t pre _ hpre]
    simp only [evalField, hacc, hmax]
  refine ⟨heval, ?_, ?_, ?_⟩
  · intro post'
    rw [heval, evalField_pre_next env field t pre _ hpre]
    simp only [evalField, hacc, hmax]
  · intro url
    simp only [processField, if_neg hfield, heval]
  · intro url rules hall
    simp only [processField, if_neg hfield,
      evalField_all_next env field t rules hall]

/-- An environment whose CSS selection returns element 7 and whose `text`
method extracts a fixed value. -/
def envAccept : ExtractEnv :=
  ⟨fun _ _ => .ok [], fun _ _ => .ok [7], fun _ _ => .ok (some (str "Example value text")),
   fun _ _ => .ok none⟩

/-- A rule rejected outright: its selector is the empty string. -/
def scReject : SelectorConfig := ⟨some [], some (str "text"), none, none, 0, 1⟩

/-- A rule that accepts with confidence weight 3. -/
def scAccept3 : SelectorConfig := ⟨some (str "p.intro"), some (str "text"), none, none, 0, 3⟩

/-- A later rule with confidence weight 5 that must never be consulted. -/
def scLater5 : SelectorConfig := ⟨some (str "div.fallback"), some (str "text"), none, none, 0, 5⟩

/-- C2 witness: with rules [reject, accept (weight 3), accept (weight 5)],
the field takes the second rule's value and exactly 3 points. -/
theorem c2_witness :
    evalField envAccept (str "summary") [scReject, scAccept3, scLater5] none =
      (some (str "Example value text"), 3, none) :=
  (c2_first_match_wins envAccept (str "summary") none [scReject] [scLater5]
    scAccept3 (str "Example value text") 3 7
    (by decide) (by decide) (by decide) (by decide)).1

/-- An environment whose `re.search` raises (an invalid regular
expression). -/
def envBadRegex : ExtractEnv :=
  ⟨fun _ _ => .ok [], fun _ _ => .ok [], fun _ _ => .ok none, fun _ _ => .error ()⟩

/-- A configuration whose only field is the URL-derived `company_name`. -/
def cfgCompany : Config :=
  ⟨str "https://www.example.com/stories/", 1, str "none", [],
   [(str "company_name", .urlSource (some (str "(")))], 7, 4, 3, [str "url"]⟩

/-- C4: the assembler has a failure exit beyond navigation timeout/error.
With an invalid `company_name` regex the code catches and logs the regex
error, but the following `if match` reads the unbound local `match` and
raises `NameError`, which nothing in the assembler catches — the run
aborts even though navigation succeeded.  Navigation failure, by contrast,
returns the claimed Absent. -/
theorem c4_invalid_regex_aborts :
    scrape_story_details envBadRegex true (str "https://www.example.com/stories/acme/")
      cfgCompany = .error () ∧
    scrape_story_details envBadRegex false (str "https://www.example.com/stories/acme/")
      cfgCompany = .ok none :=
  ⟨rfl, rfl⟩

/-- C9 as stated: URL derivation applies to every field configured with
source `url` — on a match with captured group `g` the field's value is the
title-cased, dehyphenated group and 2 points are awarded; on no match the
field is recorded as absent with zero points. -/
def claimC9 : Prop :=
  (∀ (env : ExtractEnv) (url field : Str) (regex : Option Str) (t : Option Nat) (g : Str),
    env.research (regex.getD []) url = .ok (some g) → g ≠ [] →
    processField env url t field (.urlSource regex) =
      .ok (some (some (pyTitle (dashToSpace g))), 2, t)) ∧
  (∀ (env : ExtractEnv) (url field : Str) (regex : Option Str) (t : Option Nat),
    env.research (regex.getD []) url = .ok none →
    processField env url t field (.urlSource regex) = .ok (some none, 0, t))

/-- An environment whose `re.search` always matches with first captured
group `acme-corp`. -/
def envDerive : ExtractEnv :=
  ⟨fun _ _ => .ok [], fun _ _ => .ok [], fun _ _ => .ok none,
   fun _ _ => .ok (some (str "acme-corp"))⟩

/-- C9, counterexample: the code guards the URL-derivation branch with
`field == 'company_name'`, so a field named `foo` configured with source
`url` is skipped entirely (no value, no points) even when the regex
matches. -/
theorem c9_url_derivation_cex : ¬ claimC9 := by
  intro hcl
  have h1 := hcl.1 envDerive (str "u") (str "foo")
    (some (str "/stories/([^/]+)/")) none (str "acme-corp") rfl (by decide)
  rw [show processField envDerive (str "u") none (str "foo")
      (.urlSource (some (str "/stories/([^/]+)/"))) = .ok (none, 0, none) from rfl] at h1
  simp at h1

/-- C9, amended: URL derivation applies exactly to the field named
`company_name`: on a match with a non-empty first captured group the value
is the title-cased, dehyphenated group and the fixed weight 2 is awarded;
on no match the field is recorded as absent with zero points; any other
field configured with source `url` is skipped entirely (not recorded, zero
points). -/
theorem c9_url_derivation_amended (env : ExtractEnv) (url : Str)
    (regex : Option Str) (t : Option Nat) :
    (∀ g, env.research (regex.getD []) url = .ok (some g) → g ≠ [] →
      processField env url t (str "company_name") (.urlSource regex) =
        .ok (some (some (pyTitle (dashToSpace g))), 2, t)) ∧
    (env.research (regex.getD []) url = .ok none →
      processField env url t (str "company_name") (.urlSource regex) =
        .ok (some none, 0, t)) ∧
    (∀ field, field ≠ str "company_name" →
      processField env url t field (.urlSource regex) = .ok (none, 0, t)) := by
  refine ⟨?_, ?_, ?_⟩
  · intro g hres hg
    cases g with
    | nil => exact absurd rfl hg
    | cons c gs =>
      simp only [processField, if_pos rfl, hres]
      simp
  · intro hres
    simp only [processField, if_pos rfl, hres]
    simp
  · intro field hf
    simp only [processField, if_neg hf]

/-- C9 witness: the amended theorem applied at a concrete match. -/
theorem c9_witness :
    processField envDerive (str "https://www.example.com/stories/acme-corp/") none
      (str "company_name") (.urlSource (some (str "/stories/([^/]+)/"))) =
      .ok (some (some (str "Acme Corp")), 2, none) :=
  (c9_url_derivation_amended envDerive
    (str "https://www.example.com/stories/acme-corp/")
    (some (str "/stories/([^/]+)/")) none).1 (str "acme-corp") rfl (by decide)

/-- Characters admissible in a URL scheme. -/
def isSchemeChar (c : Char) : Bool := c.isAlpha || c.isDigit || c = '+' || c = '-' || c = '.'

/-- Split a URL into scheme and remainder when it has one. -/
def schemeOf (u : Str) : Option (Str × Str) :=
  let pre := u.takeWhile isSchemeChar
  match u.drop pre.length with
  | ':' :: rest => if pre ≠ [] ∧ (pre.headD ' ').isAlpha then some (pre, rest) else none
  | _ => none

/-- Modelled from `urllib.parse.urljoin` (an external library): resolution
of a reference against an absolute hierarchical base — absolute references
are kept, network- and path-absolute references replace the corresponding
base parts, and relative references are merged onto the base path's
directory.  Dot-segment normalization is not modelled (the engine never
produces such references). -/
def urljoin (base r : Str) : Str :=
  if r = [] then base
  else
    match schemeOf r with
    | some _ => r
    | none =>
      match schemeOf base with
      | none => r
      | some (sch, brest) =>
        if (str "//").isPrefixOf r then sch ++ ':' :: r
        else
          let ap : Str × Str :=
            if (str "//").isPrefixOf brest then
              let a := (brest.drop 2).takeWhile (fun c => c != '/')
              ('/' :: '/' :: a, brest.drop (2 + a.length))
            else ([], brest)
          if (str "/").isPrefixOf r then sch ++ ':' :: ap.1 ++ r
          else
            let dir := (ap.2.reverse.dropWhile (fun c => c != '/')).reverse
            sch ++ ':' :: ap.1 ++ (if dir = [] then str "/" else dir) ++ r

example : urljoin (str "https://e.com/stories/") (str "a.html") =
    str "https://e.com/stories/a.html" := by decide

example : urljoin (str "https://e.com/stories/") (str "/") = str "https://e.com/" := by decide

/-- Strip one trailing `/.html` or `.html` suffix from a raw href (source
lines 119-120). -/
def stripHtml (h : Str) : Str :=
  if (str "/.html").isSuffixOf h then h.take (h.length - 6)
  else if (str ".html").isSuffixOf h then h.take (h.length - 5)
  else h

/-- Python `s.rsplit('/', 2)[0]`: everything before the last two
slash-separated components. -/
def rsplit2Head (l : Str) : Str :=
  match l.reverse.dropWhile (fun c => c != '/') with
  | [] => l
  | _ :: t =>
    match t.dropWhile (fun c => c != '/') with
    | [] => t.reverse
    | _ :: t2 => t2.reverse

example : rsplit2Head (str "https://e.com/stories/") = str "https://e.com" := by decide

/-- The default company-name regex used when the configuration omits one. -/
def defaultCompanyRegex : Str := str "/stories/([^/]+)/"

/-- The `.get('data_selectors').get('company_name').get('regex', default)`
chain: `none` marks the `AttributeError` raised when `company_name` maps to
a rule list (caught per link element). -/
def companyRegexOf (ds : List (Str × FieldSel)) : Option Str :=
  match (ds.find? (fun e => e.1 = str "company_name")).map (fun e => e.2) with
  | none => some defaultCompanyRegex
  | some (FieldSel.urlSource r) => some (r.getD defaultCompanyRegex)
  | some (FieldSel.ruleList _) => none

/-- `company_regex.split('/')[1]`: the first path segment of the
company-name regex; `none` marks the exceptions (attribute or index errors)
that skip the link element. -/
def companySeg (ds : List (Str × FieldSel)) : Option Str := do
  let rx ← companyRegexOf ds
  (rx.splitOn '/')[1]?

example : companySeg [] = some (str "stories") := by decide

/-- Python's substring containment (`in` on strings). -/
def isInfixOfStr (p : Str) : Str → Bool
  | [] => p.isEmpty
  | c :: t => p.isPrefixOf (c :: t) || isInfixOfStr p t

/-- Process one link element's href (source lines 115-127): skip falsy
hrefs, strip one `.html` suffix, join with the base URL, and keep the
result only if it contains the site root, differs from the base URL, is not
the `#` placeholder, and starts with the path prefix built from the base
URL and the company-regex segment. -/
def processHref (cfg : Config) (links : List Str) (ho : Option Str) : List Str :=
  match ho with
  | none => links
  | some h0 =>
    if h0 = [] then links
    else
      let h := stripHtml h0
      let full := urljoin cfg.base_url h
      if isInfixOfStr (urljoin cfg.base_url (str "/")) full ∧ full ≠ cfg.base_url ∧
          h ≠ str "#" then
        match companySeg cfg.data_selectors with
        | none => links
        | some seg =>
          if (rsplit2Head cfg.base_url ++ '/' :: seg ++ ['/']).isPrefixOf full then
            if full ∈ links then links else links ++ [full]
          else links
      else links

/-- What the listing page shows on one iteration of the pagination loop:
the first item link's combined `data-href`/`href` attribute (the page
fingerprint) and the combined attribute of every item link element. -/
structure PageView where
  firstHref : Option Str
  elems : List (Option Str)

/-- Collect the accepted links of one page view (the inner `for` loop). -/
def pageLinks (cfg : Config) (links : List Str) (pv : PageView) : List Str :=
  pv.elems.foldl (processHref cfg) links

/-- The pagination loop of `get_story_links` (source lines 104-163).  The
environment is the list of page views the browser presents: the head is the
current page, and each successful pagination interaction reveals the next
entry; an exhausted list models the waits or clicks that time out, after
which accumulated links are returned.  A stall (an unchanged fingerprint on
a later iteration) or an empty element list on the first page terminates
the loop exactly as in the source. -/
def discoLoop (cfg : Config) : List PageView → Nat → Option Str → List Str → List Str
  | [], _, _, links => links
  | pv :: rest, current, last, links =>
    if cfg.max_pages_to_scrape < current then links
    else if 1 < current ∧ pv.firstHref = last then links
    else
      let links' := pageLinks cfg links pv
      if pv.elems = [] ∧ current = 1 then []
      else if current < cfg.max_pages_to_scrape then
        if (cfg.pagination_type = str "click_button_by_page_number" ∨
            cfg.pagination_type = str "click_load_more") ∧
            cfg.next_page_button_selector ≠ [] then
          discoLoop cfg rest (current + 1) pv.firstHref links'
        else links'
      else links'

/-- The Link Discovery Engine (`get_story_links`): run the pagination loop
from page 1 with an empty fingerprint and no accumulated links. -/
def get_story_links (cfg : Config) (pages : List PageView) : List Str :=
  discoLoop cfg pages 1 (some []) []

/-- C5: stall detection on any iteration after the first.  Whatever the
loop state — the current iteration number (greater than one), the previous
iteration's fingerprint, and the links accumulated so far — if the page now
shown carries the previous fingerprint, the loop terminates at that
iteration and returns exactly the accumulated links, untouched by this page
or anything the environment would have shown later. -/
theorem c5_stall_terminates (cfg : Config) (w : PageView) (rest : List PageView)
    (current : Nat) (last : Option Str) (links : List Str)
    (hc : 1 < current) (hfp : w.firstHref = last) :
    discoLoop cfg (w :: rest) current last links = links := by
  by_cases hm : cfg.max_pages_to_scrape < current
  · simp only [discoLoop]
    rw [if_pos hm]
  · simp only [discoLoop]
    rw [if_neg hm, if_pos ⟨hc, hfp⟩]

/-- A stalling environment: page 3 repeats page 2's fingerprint. -/
def cfgStall : Config :=
  ⟨str "https://e.com/stories/", 3, str "click_button_by_page_number",
   str "a.page", [], 7, 4, 3, [str "url"]⟩

/-- First page view of the stalling environment. -/
def pvFirst : PageView :=
  ⟨some (str "https://e.com/stories/a/"), [some (str "https://e.com/stories/a/")]⟩

/-- Second page view: pagination advanced normally to page `b`. -/
def pvSecond : PageView :=
  ⟨some (str "https://e.com/stories/b/"), [some (str "https://e.com/stories/b/")]⟩

/-- Third page view: pagination clicked but content unchanged (page `b`'s
fingerprint again); its element `c` must never be collected. -/
def pvStall3 : PageView :=
  ⟨some (str "https://e.com/stories/b/"), [some (str "https://e.com/stories/c/")]⟩

/-- A page view after the stall, which must never be consulted. -/
def pvTail : PageView :=
  ⟨some (str "https://e.com/stories/d/"), [some (str "https://e.com/stories/d/")]⟩

/-- C5 witness: after two successfully processed pages, the stall theorem
applied at iteration 3 — discovery returns only the links of pages 1 and
2. -/
theorem c5_witness :
    get_story_links cfgStall [pvFirst, pvSecond, pvStall3, pvTail] =
      [str "https://e.com/stories/a/", str "https://e.com/stories/b/"] := by
  have h := c5_stall_terminates cfgStall pvStall3 [pvTail] 3 pvSecond.firstHref
    [str "https://e.com/stories/a/", str "https://e.com/stories/b/"]
    (by omega) rfl
  calc get_story_links cfgStall [pvFirst, pvSecond, pvStall3, pvTail]
      = discoLoop cfgStall [pvStall3, pvTail] 3 pvSecond.firstHref
        [str "https://e.com/stories/a/", str "https://e.com/stories/b/"] := by decide
    _ = [str "https://e.com/stories/a/", str "https://e.com/stories/b/"] := h

/-- The invariant every discovered link satisfies: built by `urljoin` from a
once-stripped raw href that is not the `#` placeholder, distinct from the
base URL, containing the site root, and starting with the configured path
prefix. -/
def linkProp (cfg : Config) (url : Str) : Prop :=
  (∃ raw, url = urljoin cfg.base_url (stripHtml raw) ∧ stripHtml raw ≠ str "#") ∧
  url ≠ cfg.base_url ∧
  isInfixOfStr (urljoin cfg.base_url (str "/")) url = true ∧
  (∃ seg, companySeg cfg.data_selectors = some seg ∧
    (rsplit2Head cfg.base_url ++ '/' :: seg ++ ['/']).isPrefixOf url = true)

/-- `processHref` only ever adds links satisfying the invariant. -/
theorem processHref_sound (cfg : Config) (links : List Str) (ho : Option Str)
    (hl : ∀ u ∈ links, linkProp cfg u) :
    ∀ u ∈ processHref cfg links ho, linkProp cfg u := by
  intro u hu
  match ho with
  | none => exact hl u hu
  | some h0 =>
    simp only [processHref] at hu
    by_cases h1 : h0 = []
    · rw [if_pos h1] at hu
      exact hl u hu
    · rw [if_neg h1] at hu
      by_cases hg : isInfixOfStr (urljoin cfg.base_url (str "/"))
          (urljoin cfg.base_url (stripHtml h0)) = true ∧
          urljoin cfg.base_url (stripHtml h0) ≠ cfg.base_url ∧
          stripHtml h0 ≠ str "#"
      · rw [if_pos hg] at hu
        cases hcs : companySeg cfg.data_selectors with
        | none =>
          simp only [hcs] at hu
          exact hl u hu
        | some seg =>
          simp only [hcs] at hu
          by_cases hp : (rsplit2Head cfg.base_url ++ '/' :: seg ++ ['/']).isPrefixOf
              (urljoin cfg.base_url (stripHtml h0)) = true
          · rw [if_pos hp] at hu
            by_cases hmem : urljoin cfg.base_url (stripHtml h0) ∈ links
            · rw [if_pos hmem] at hu
              exact hl u hu
            · rw [if_neg hmem] at hu
              rcases List.mem_append.mp hu with h | h
              · exact hl u h
              · have hue : u = urljoin cfg.base_url (stripHtml h0) := by simpa using h
                subst hue
                exact ⟨⟨h0, rfl, hg.2.2⟩, hg.2.1, hg.1, ⟨seg, hcs, hp⟩⟩
          · rw [if_neg hp] at hu
            exact hl u hu
      · rw [if_neg hg] at hu
        exact hl u hu

/-- Folding `processHref` over a page's elements preserves the invariant. -/
theorem foldl_processHref_sound (cfg : Config) :
    ∀ (elems : List (Option Str)) (links : List Str),
      (∀ u ∈ links, linkProp cfg u) →
      ∀ u ∈ elems.foldl (processHref cfg) links, linkProp cfg u := by
  intro elems
  induction elems with
  | nil =>
    intro links hl
    simpa using hl
  | cons e t ih =>
    intro links hl
    exact ih _ (processHref_sound cfg links e hl)

/-- Every link the pagination loop returns satisfies the invariant. -/
theorem discoLoop_sound (cfg : Config) :
    ∀ (pages : List PageView) (current : Nat) (last : Option Str) (links : List Str),
      (∀ u ∈ links, linkProp cfg u) →
      ∀ u ∈ discoLoop cfg pages current last links, linkProp cfg u := by
  intro pages
  induction pages with
  | nil =>
    intro current last links hl
    simpa [discoLoop] using hl
  | cons pv rest ih =>
    intro current last links hl u hu
    simp only [discoLoop] at hu
    split at hu
    · exact hl u hu
    · split at hu
      · exact hl u hu
      · split at hu
        · simp at hu
        · split at hu
          · split at hu
            · exact ih _ _ _ (foldl_processHref_sound cfg pv.elems links hl) u hu
            · exact foldl_processHref_sound cfg pv.elems links hl u hu
          · exact foldl_processHref_sound cfg pv.elems links hl u hu

/-- C10 as stated, including the claim that no discovered URL ends in
`.html`. -/
def claimC10 (cfg : Config) (pages : List PageView) : Prop :=
  ∀ url ∈ get_story_links cfg pages,
    (∃ raw, url = urljoin cfg.base_url (stripHtml raw) ∧ stripHtml raw ≠ str "#") ∧
    url ≠ cfg.base_url ∧
    (str ".html").isSuffixOf url = false ∧
    (∃ seg, companySeg cfg.data_selectors = some seg ∧
      (rsplit2Head cfg.base_url ++ '/' :: seg ++ ['/']).isPrefixOf url = true)

/-- Discovery configuration for the `.html` counterexample. -/
def cfgHtml : Config :=
  ⟨str "https://e.com/stories/", 1, str "none", [], [], 7, 4, 3, [str "url"]⟩

/-- A single page whose link's raw href carries a doubled `.html` suffix. -/
def pagesHtml : List PageView :=
  [⟨some (str "a.html.html"), [some (str "a.html.html")]⟩]

/-- C10, counterexample: the suffix strip is applied once, so the raw href
`a.html.html` yields the discovered URL `https://e.com/stories/a.html`,
which still ends in `.html`. -/
theorem c10_link_filter_cex : ¬ claimC10 cfgHtml pagesHtml := by
  intro h
  have hm : str "https://e.com/stories/a.html" ∈ get_story_links cfgHtml pagesHtml := by
    decide
  exact absurd (h _ hm).2.2.1 (by decide)

/-- C10, amended: every discovered URL is the join of the base URL with a
raw href stripped of one trailing `.html` (or `/.html`) suffix, is not the
base URL itself nor the `#` placeholder, contains the site root, and starts
with the path prefix built from the base URL and the first path segment of
the company-name regex; a doubly suffixed href can still produce a URL
ending in `.html`. -/
theorem c10_link_invariant_amended (cfg : Config) (pages : List PageView) :
    ∀ url ∈ get_story_links cfg pages,
      (∃ raw, url = urljoin cfg.base_url (stripHtml raw) ∧ stripHtml raw ≠ str "#") ∧
      url ≠ cfg.base_url ∧
      isInfixOfStr (urljoin cfg.base_url (str "/")) url = true ∧
      (∃ seg, companySeg cfg.data_selectors = some seg ∧
        (rsplit2Head cfg.base_url ++ '/' :: seg ++ ['/']).isPrefixOf url = true) := by
  intro url hu
  exact discoLoop_sound cfg pages 1 (some []) [] (by simp) url hu

/-- C10 witness: the amended invariant applied to the concrete discovered
URL of the counterexample environment. -/
theorem c10_witness :
    (∃ raw, str "https://e.com/stories/a.html" =
        urljoin cfgHtml.base_url (stripHtml raw) ∧ stripHtml raw ≠ str "#") ∧
    str "https://e.com/stories/a.html" ≠ cfgHtml.base_url ∧
    isInfixOfStr (urljoin cfgHtml.base_url (str "/"))
      (str "https://e.com/stories/a.html") = true ∧
    (∃ seg, companySeg cfgHtml.data_selectors = some seg ∧
      (rsplit2Head cfgHtml.base_url ++ '/' :: seg ++ ['/']).isPrefixOf
        (str "https://e.com/stories/a.html") = true) :=
  c10_link_invariant_amended cfgHtml pagesHtml
    (str "https://e.com/stories/a.html") (by decide)

/-- One retry pass (the inner loop of source lines 294-307): assemble every
URL in the work list, accumulating successful records in order and failed
URLs in order. -/
def passOnce (f : Str → Option Rec) : List Str → List Rec × List Str
  | [] => ([], [])
  | u :: us =>
    let p := passOnce f us
    match f u with
    | some r => (r :: p.1, p.2)
    | none => (p.1, u :: p.2)

/-- The retry loop (source lines 289-309): run up to `fuel` passes starting
at pass index `n`; stop early when the work list empties.  Returns the
accumulated records, the URLs still failing, and the number of passes that
actually assembled anything. -/
def retryGo (f : Nat → Str → Option Rec) : Nat → Nat → List Str → List Rec →
    List Rec × List Str × Nat
  | _, 0, urls, acc => (acc, urls, 0)
  | n, fuel + 1, urls, acc =>
    if urls = [] then (acc, urls, 0)
    else
      let p := passOnce (f n) urls
      let q := retryGo f (n + 1) fuel p.2 (acc ++ p.1)
      (q.1, q.2.1, q.2.2 + 1)

/-- The Retry Controller: at most `maxR` passes over the discovered URLs,
the work list starting as the full list. -/
def runRetries (f : Nat → Str → Option Rec) (maxR : Nat) (urls : List Str) :
    List Rec × List Str × Nat :=
  retryGo f 0 maxR urls []

/-- A pass yields exactly the records of the successful URLs (in order) and
the failed URLs (in order). -/
theorem passOnce_eq (f : Str → Option Rec) (urls : List Str) :
    passOnce f urls = (urls.filterMap f, urls.filter (fun u => (f u).isNone)) := by
  induction urls with
  | nil => rfl
  | cons u us ih =>
    simp only [passOnce, ih]
    cases hf : f u <;> simp [List.filterMap_cons, List.filter_cons, hf]

/-- Successes and failures of a pass partition the work list. -/
theorem length_filterMap_add_filter (f : Str → Option Rec) (urls : List Str) :
    (urls.filterMap f).length + (urls.filter (fun u => (f u).isNone)).length =
      urls.length := by
  induction urls with
  | nil => rfl
  | cons u us ih =>
    cases hf : f u <;> simp [List.filterMap_cons, List.filter_cons, hf] <;> omega

/-- The records of a record list whose `url` entry is `u`. -/
def recsFor (u : Str) (rs : List Rec) : List Rec :=
  rs.filter (fun r => decide (dictGet r (str "url") = some (some u)))

/-- Counting records per URL in the output of a single pass: a URL with a
successful assembly contributes exactly one record, any other URL none. -/
theorem recsFor_filterMap (f : Str → Option Rec) (u : Str) (urls : List Str)
    (hnd : urls.Nodup)
    (hurl : ∀ v r, f v = some r → dictGet r (str "url") = some (some v)) :
    (recsFor u (urls.filterMap f)).length =
      if u ∈ urls ∧ (f u).isSome then 1 else 0 := by
  induction urls with
  | nil => simp [recsFor]
  | cons v vs ih =>
    have hnd' : vs.Nodup := (List.nodup_cons.mp hnd).2
    have hv : v ∉ vs := (List.nodup_cons.mp hnd).1
    cases hf : f v with
    | none =>
      rw [List.filterMap_cons_none hf, ih hnd']
      by_cases hu : u = v
      · subst hu
        simp [hf, hv]
      · simp [List.mem_cons, hu]
    | some r =>
      have hr := hurl v r hf
      rw [List.filterMap_cons_some hf]
      by_cases hu : u = v
      · subst hu
        have h1 : (recsFor u (r :: vs.filterMap f)).length =
            1 + (recsFor u (vs.filterMap f)).length := by
          simp [recsFor, List.filter_cons, hr]
          omega
        rw [h1, ih hnd']
        simp [hv, hf]
      · have h1 : (recsFor u (r :: vs.filterMap f)).length =
            (recsFor u (vs.filterMap f)).length := by
          simp only [recsFor, List.filter_cons]
          have : ¬ dictGet r (str "url") = some (some u) := by
            rw [hr]
            simp
            exact fun hvu => hu (hvu.symm)
          simp [this]
        rw [h1, ih hnd']
        simp [List.mem_cons, hu]

/-- `recsFor` distributes over append. -/
theorem recsFor_append (u : Str) (a b : List Rec) :
    recsFor u (a ++ b) = recsFor u a ++ recsFor u b := by
  simp [recsFor, List.filter_append]

/-- Main convergence property of the retry loop: if every URL in the
(duplicate-free) work list succeeds within `K` further passes and the fuel
allows them, the loop ends with an empty work list, one record per URL, and
at most `K` executed passes. -/
theorem retryGo_complete (f : Nat → Str → Option Rec)
    (hurl : ∀ n v r, f n v = some r → dictGet r (str "url") = some (some v)) :
    ∀ (K fuel n : Nat) (urls : List Str) (acc : List Rec),
      urls.Nodup →
      (∀ u ∈ urls, ∃ j, j < K ∧ (f (n + j) u).isSome) →
      K ≤ fuel →
      ∃ extra k,
        retryGo f n fuel urls acc = (acc ++ extra, [], k) ∧ k ≤ K ∧
        extra.length = urls.length ∧
        (∀ u ∈ urls, (recsFor u extra).length = 1) ∧
        (∀ u, u ∉ urls → (recsFor u extra).length = 0) := by
  intro K
  induction K with
  | zero =>
    intro fuel n urls acc hnd hsucc hK
    have hnil : urls = [] := by
      cases urls with
      | nil => rfl
      | cons u us =>
        obtain ⟨j, hj, _⟩ := hsucc u (by simp)
        omega
    subst hnil
    refine ⟨[], 0, ?_, Nat.le_refl 0, rfl, by simp, fun u _ => by simp [recsFor]⟩
    cases fuel with
    | zero => simp [retryGo]
    | succ m => simp [retryGo]
  | succ K' ih =>
    intro fuel n urls acc hnd hsucc hK
    by_cases hne : urls = []
    · subst hne
      refine ⟨[], 0, ?_, by omega, rfl, by simp, fun u _ => by simp [recsFor]⟩
      cases fuel with
      | zero => simp [retryGo]
      | succ m => simp [retryGo]
    · cases fuel with
      | zero => omega
      | succ fuel' =>
        have hstep : retryGo f n (fuel' + 1) urls acc =
            ((retryGo f (n + 1) fuel' (passOnce (f n) urls).2
              (acc ++ (passOnce (f n) urls).1)).1,
             (retryGo f (n + 1) fuel' (passOnce (f n) urls).2
              (acc ++ (passOnce (f n) urls).1)).2.1,
             (retryGo f (n + 1) fuel' (passOnce (f n) urls).2
              (acc ++ (passOnce (f n) urls).1)).2.2 + 1) := by
          simp [retryGo, hne]
        rw [passOnce_eq] at hstep
        have hndf : (urls.filter (fun u => (f n u).isNone)).Nodup := hnd.filter _
        have hsuccf : ∀ u ∈ urls.filter (fun u => (f n u).isNone),
            ∃ j, j < K' ∧ (f (n + 1 + j) u).isSome := by
          intro u hu
          have hmem := (List.mem_filter.mp hu).1
          have hnone : (f n u).isNone = true := by
            simpa using (List.mem_filter.mp hu).2
          obtain ⟨j, hj, hs⟩ := hsucc u hmem
          cases j with
          | zero =>
            rw [Nat.add_zero] at hs
            rw [Option.isNone_iff_eq_none.mp hnone] at hs
            simp at hs
          | succ j' =>
            refine ⟨j', by omega, ?_⟩
            have : n + 1 + j' = n + (j' + 1) := by omega
            rw [this]
            exact hs
        obtain ⟨extra', k', heq, hk', hlen', hone', hzero'⟩ :=
          ih fuel' (n + 1) (urls.filter (fun u => (f n u).isNone))
            (acc ++ urls.filterMap (f n)) hndf hsuccf (by omega)
        refine ⟨urls.filterMap (f n) ++ extra', k' + 1, ?_, by omega, ?_, ?_, ?_⟩
        · rw [hstep, heq]
          simp [List.append_assoc]
        · have := length_filterMap_add_filter (f n) urls
          simp only [List.length_append]
          omega
        · intro u hu
          rw [recsFor_append]
          simp only [List.length_append]
          rw [recsFor_filterMap (f n) u urls hnd (hurl n)]
          by_cases hs : (f n u).isSome
          · have hnotf : u ∉ urls.filter (fun u => (f n u).isNone) := by
              intro hmem
              have := (List.mem_filter.mp hmem).2
              simp [Option.isNone_iff_eq_none] at this
              rw [this] at hs
              simp at hs
            rw [hzero' u hnotf]
            simp [hu, hs]
          · have hmemf : u ∈ urls.filter (fun u => (f n u).isNone) := by
              rw [List.mem_filter]
              refine ⟨hu, ?_⟩
              simpa using Option.not_isSome_iff_eq_none.mp hs
            rw [hone' u hmemf]
            simp [hs]
        · intro u hu
          rw [recsFor_append]
          simp only [List.length_append]
          rw [recsFor_filterMap (f n) u urls hnd (hurl n)]
          have hnotf : u ∉ urls.filter (fun u => (f n u).isNone) := by
            intro hmem
            exact hu (List.mem_filter.mp hmem).1
          rw [hzero' u hnotf]
          simp [hu]

/-- The number of executed passes never exceeds the fuel. -/
theorem retryGo_passes_le (g : Nat → Str → Option Rec) :
    ∀ (fuel m : Nat) (us : List Str) (acc : List Rec),
      (retryGo g m fuel us acc).2.2 ≤ fuel := by
  intro fuel
  induction fuel with
  | zero =>
    intro m us acc
    simp [retryGo]
  | succ fuel' ih =>
    intro m us acc
    by_cases h : us = []
    · subst h
      simp [retryGo]
    · simp only [retryGo, if_neg h]
      have := ih (m + 1) (passOnce (g m) us).2 (acc ++ (passOnce (g m) us).1)
      omega

/-- C6: the retry controller runs at most `max_retries` passes; an empty
work list stops the loop with no further pass; after each pass the work
list becomes exactly that pass's failed URLs (and the successes are
appended to the results); and when every URL of the duplicate-free work
list succeeds by pass `K ≤ max_retries`, the final work list is empty, the
result holds exactly one record per URL, and at most `K` passes execute. -/
theorem c6_retry_controller (f : Nat → Str → Option Rec) (maxR K : Nat)
    (urls : List Str) (hnd : urls.Nodup)
    (hurl : ∀ n v r, f n v = some r → dictGet r (str "url") = some (some v))
    (hsucc : ∀ u ∈ urls, ∃ j, j < K ∧ (f j u).isSome) (hK : K ≤ maxR) :
    (∀ (g : Nat → Str → Option Rec) (m fuel : Nat) (us : List Str) (acc : List Rec),
      (retryGo g m fuel us acc).2.2 ≤ fuel) ∧
    (∀ (g : Nat → Str → Option Rec) (m fuel : Nat) (acc : List Rec),
      retryGo g m fuel [] acc = (acc, [], 0)) ∧
    (∀ (g : Nat → Str → Option Rec) (m fuel : Nat) (us : List Str) (acc : List Rec),
      us ≠ [] →
      retryGo g m (fuel + 1) us acc =
        ((retryGo g (m + 1) fuel (us.filter (fun u => (g m u).isNone))
            (acc ++ us.filterMap (g m))).1,
         (retryGo g (m + 1) fuel (us.filter (fun u => (g m u).isNone))
            (acc ++ us.filterMap (g m))).2.1,
         (retryGo g (m + 1) fuel (us.filter (fun u => (g m u).isNone))
            (acc ++ us.filterMap (g m))).2.2 + 1)) ∧
    ((runRetries f maxR urls).2.1 = [] ∧
     (runRetries f maxR urls).1.length = urls.length ∧
     (runRetries f maxR urls).2.2 ≤ K ∧
     (∀ u ∈ urls, (recsFor u (runRetries f maxR urls).1).length = 1)) := by
  refine ⟨fun g m fuel us acc => retryGo_passes_le g fuel m us acc, ?_, ?_, ?_⟩
  · intro g m fuel acc
    cases fuel with
    | zero => simp [retryGo]
    | succ m' => simp [retryGo]
  · intro g m fuel us acc h
    simp only [retryGo, if_neg h, passOnce_eq]
  · have hsucc' : ∀ u ∈ urls, ∃ j, j < K ∧ (f (0 + j) u).isSome := by
      intro u hu
      obtain ⟨j, hj, hs⟩ := hsucc u hu
      exact ⟨j, hj, by simpa using hs⟩
    obtain ⟨extra, k, heq, hk, hlen, hone, _⟩ :=
      retryGo_complete f hurl K maxR 0 urls [] hnd hsucc' hK
    have hrr : runRetries f maxR urls = ([] ++ extra, [], k) := heq
    rw [hrr]
    refine ⟨rfl, by simpa using hlen, by simpa using hk, ?_⟩
    intro u hu
    simpa using hone u hu

/-- An assembler oracle: URLs `u4` and `u5` fail on pass 1 and succeed
from pass 2 on; the others succeed immediately. -/
def fWitness : Nat → Str → Option Rec := fun n u =>
  if n = 0 ∧ (u = str "u4" ∨ u = str "u5") then none
  else some [(str "url", some u)]

/-- Five pairwise distinct URLs. -/
def urlsW : List Str := [str "u1", str "u2", str "u3", str "u4", str "u5"]

/-- C6 witness: with 5 URLs of which 2 fail only on pass 1, three retry
passes produce an empty work list, 5 records (one per URL), and at most 2
executed passes. -/
theorem c6_witness :
    (runRetries fWitness 3 urlsW).2.1 = [] ∧
    (runRetries fWitness 3 urlsW).1.length = 5 ∧
    (runRetries fWitness 3 urlsW).2.2 ≤ 2 ∧
    (∀ u ∈ urlsW, (recsFor u (runRetries fWitness 3 urlsW).1).length = 1) := by
  have h := c6_retry_controller fWitness 3 2 urlsW (by decide)
    (by
      intro n v r hfv
      unfold fWitness at hfv
      split at hfv
      · simp at hfv
      · have hv := Option.some.inj hfv
        rw [← hv]
        rfl)
    (by
      intro u hu
      fin_cases hu
      · exact ⟨0, by omega, by decide⟩
      · exact ⟨0, by omega, by decide⟩
      · exact ⟨0, by omega, by decide⟩
      · exact ⟨1, by omega, by decide⟩
      · exact ⟨1, by omega, by decide⟩)
    (by omega)
  exact ⟨h.2.2.2.1, h.2.2.2.2.1, h.2.2.2.2.2.1, h.2.2.2.2.2.2⟩

/-- Whether any record carries the column (pandas `column in df.columns`). -/
def hasCol (records : List Rec) (k : Str) : Bool :=
  records.any (fun r => (dictGet r k).isSome)

/-- The cell a record contributes for a column (source lines 319-324): the
record's own value when the key is present; the uniform default `Low`/`Yes`
when the column is absent from every record; `NaN` (here `none`)
otherwise — including for requested columns no record carries, which
`reindex` fills with `NaN`. -/
def cellOf (records : List Rec) (r : Rec) (k : Str) : Option Str :=
  match dictGet r k with
  | some v => v
  | none =>
    if k = str "confidence_score" ∧ ¬ hasCol records k then some (str "Low")
    else if k = str "needs_verification" ∧ ¬ hasCol records k then some (str "Yes")
    else none

/-- The sort key `x.get('url', '')` (a record carrying `url = None`, which
would make the Python comparison fail, is keyed as the empty string; the
assembler never produces one). -/
def urlKey (r : Rec) : Str :=
  match dictGet r (str "url") with
  | some (some s) => s
  | _ => []

/-- Row order: ascending by source-URL key. -/
def urlLe (a b : Rec) : Prop := urlKey a ≤ urlKey b

instance : DecidableRel urlLe := fun a b =>
  inferInstanceAs (Decidable (urlKey a ≤ urlKey b))

instance : IsTotal Rec urlLe := ⟨fun a b => le_total (urlKey a) (urlKey b)⟩

instance : IsTrans Rec urlLe := ⟨fun _ _ _ hab hbc => le_trans hab hbc⟩

/-- Append a column name unless already requested (source lines 321-322). -/
def appendIfMissing (cols : List Str) (k : Str) : List Str :=
  if k ∈ cols then cols else cols ++ [k]

/-- Serialize the record list (source lines 316-327): sort by URL, extend
the requested columns with the two derived ones when missing, and project
every record onto exactly those columns in order. -/
def serializeTable (records : List Rec) (oc : List Str) :
    List Str × List (List (Option Str)) :=
  let cols := appendIfMissing (appendIfMissing oc (str "confidence_score"))
    (str "needs_verification")
  (cols, (List.insertionSort urlLe records).map (fun r => cols.map (cellOf records r)))

/-- A terminal report: the completion callback's success flag and whether a
payload was attached. -/
structure Report where
  success : Bool
  hasPayload : Bool
deriving DecidableEq, Repr

/-- The observable outcome of one run: every completion callback invocation
in order, whether the still-failing URLs were named in a progress message,
and the serialized payload if any. -/
structure RunOut where
  reports : List Report
  warnedFailed : Bool
  payload : Option (List Str × List (List (Option Str)))

/-- The outcome of one assembly attempt as the orchestrator's loop sees
it: an uncaught exception (`Except.error`, e.g. the `NameError` or
`IndexError` paths of `scrape_story_details`), Absent, or a record. -/
abbrev AssembleResult := Except Unit (Option Rec)

/-- One retry pass under a fallible assembler: an exception aborts the
pass immediately, carrying the records already appended this pass (they
reached `all_stories_data` before the raise). -/
def passOnceE (f : Str → AssembleResult) :
    List Str → Except (List Rec) (List Rec × List Str)
  | [] => .ok ([], [])
  | u :: us =>
    match f u with
    | .error _ => .error []
    | .ok (some r) =>
      match passOnceE f us with
      | .error rs => .error (r :: rs)
      | .ok p => .ok (r :: p.1, p.2)
    | .ok none =>
      match passOnceE f us with
      | .error rs => .error rs
      | .ok p => .ok (p.1, u :: p.2)

/-- The retry loop under a fallible assembler: an escaping exception
carries every record assembled before it (source line 333 then reports
failure and discards them). -/
def retryGoE (f : Nat → Str → AssembleResult) :
    Nat → Nat → List Str → List Rec → Except (List Rec) (List Rec × List Str × Nat)
  | _, 0, urls, acc => .ok (acc, urls, 0)
  | n, fuel + 1, urls, acc =>
    if urls = [] then .ok (acc, urls, 0)
    else
      match passOnceE (f n) urls with
      | .error rs => .error (acc ++ rs)
      | .ok p =>
        match retryGoE f (n + 1) fuel p.2 (acc ++ p.1) with
        | .error rs => .error rs
        | .ok q => .ok (q.1, q.2.1, q.2.2 + 1)

/-- The records assembled during the run, on either exit of the retry
loop. -/
def assembledOf : Except (List Rec) (List Rec × List Str × Nat) → List Rec
  | .error rs => rs
  | .ok q => q.1

/-- The Run Orchestrator (`run_scraper_main`, source lines 277-333), after
a successful driver setup: no discovered URLs reports failure; an
assembler exception escaping the retry loop is caught by the generic
handler at line 333, which reports failure with no payload (skipping both
the still-failing warning and the save step); otherwise still-failing URLs
are named in a progress warning, and completion reports success with the
serialized table exactly when at least one record was assembled. -/
def run_scraper_main (f : Nat → Str → AssembleResult) (cfg : Config)
    (urls : List Str) : RunOut :=
  if urls = [] then ⟨[⟨false, false⟩], false, none⟩
  else
    match retryGoE f 0 cfg.max_retries urls [] with
    | .error _ => ⟨[⟨false, false⟩], false, none⟩
    | .ok q =>
      if q.1 = [] then ⟨[⟨false, false⟩], !q.2.1.isEmpty, none⟩
      else ⟨[⟨true, true⟩], !q.2.1.isEmpty, some (serializeTable q.1 cfg.output_columns)⟩

/-- C7 as stated: the completion callback fires exactly once, and it
reports failure exactly when discovery yielded no URLs or no record was
assembled. -/
def claimC7 : Prop :=
  ∀ (f : Nat → Str → AssembleResult) (cfg : Config) (urls : List Str),
    ∃ rep, (run_scraper_main f cfg urls).reports = [rep] ∧
      (rep.success = true ↔
        urls ≠ [] ∧ assembledOf (retryGoE f 0 cfg.max_retries urls []) ≠ [])

/-- An assembler that succeeds on the first URL and raises on the second
(as a matching, group-less `company_name` regex does at source line 186). -/
def fCrash : Nat → Str → AssembleResult := fun _ u =>
  if u = str "u2" then .error () else .ok (some [(str "url", some u)])

/-- C7, counterexample: when an assembler exception escapes after a record
was already assembled, the generic handler at line 333 reports failure even
though at least one record was assembled, refuting the claimed
biconditional. -/
theorem c7_completion_cex : ¬ claimC7 := by
  intro h
  obtain ⟨rep, hrep, hiff⟩ := h fCrash cfgPlain [str "u1", str "u2"]
  have heval : (run_scraper_main fCrash cfgPlain [str "u1", str "u2"]).reports =
      [⟨false, false⟩] := rfl
  rw [heval] at hrep
  have hr : rep = ⟨false, false⟩ := by
    have := List.cons.inj hrep
    exact this.1.symm
  subst hr
  have hrhs : ([str "u1", str "u2"] ≠ ([] : List Str)) ∧
      assembledOf (retryGoE fCrash 0 cfgPlain.max_retries [str "u1", str "u2"] []) ≠ [] := by
    refine ⟨by simp, ?_⟩
    rw [show retryGoE fCrash 0 cfgPlain.max_retries [str "u1", str "u2"] [] =
      .error [[(str "url", some (str "u1"))]] from rfl]
    simp [assembledOf]
  have := hiff.mpr hrhs
  simp at this

/-- C7, amended: the completion callback fires exactly once on every exit
path of the modelled orchestrator.  On runs where no assembler exception
escapes, it reports failure (with no payload) exactly when discovery
yielded no URLs or no record survived the retry passes, success with a
payload otherwise, and still-failing URLs are named via the progress
warning exactly when some remain.  An escaping assembler exception reports
failure with no payload and no warning, regardless of the records already
assembled. -/
theorem c7_completion_report (f : Nat → Str → AssembleResult) (cfg : Config)
    (urls : List Str) :
    (run_scraper_main f cfg urls).reports.length = 1 ∧
    (∀ q, retryGoE f 0 cfg.max_retries urls [] = .ok q →
      ∃ rep, (run_scraper_main f cfg urls).reports = [rep] ∧
        (rep.success = true ↔ urls ≠ [] ∧ q.1 ≠ []) ∧
        ((run_scraper_main f cfg urls).payload.isSome = rep.success) ∧
        (rep.hasPayload = rep.success) ∧
        ((run_scraper_main f cfg urls).warnedFailed = true ↔
          urls ≠ [] ∧ q.2.1 ≠ [])) ∧
    (∀ rs, retryGoE f 0 cfg.max_retries urls [] = .error rs →
      run_scraper_main f cfg urls = ⟨[⟨false, false⟩], false, none⟩) := by
  by_cases hu : urls = []
  · subst hu
    have hq : retryGoE f 0 cfg.max_retries [] [] = .ok ([], [], 0) := by
      cases h : cfg.max_retries <;> simp [retryGoE]
    refine ⟨by simp [run_scraper_main], ?_, ?_⟩
    · intro q hq'
      rw [hq] at hq'
      have hqv : q = ([], [], 0) := (Except.ok.inj hq').symm
      subst hqv
      refine ⟨⟨false, false⟩, ?_, ?_, ?_, rfl, ?_⟩ <;> simp [run_scraper_main]
    · intro rs hrs
      rw [hq] at hrs
      exact absurd hrs (by simp)
  · cases hq : retryGoE f 0 cfg.max_retries urls [] with
    | error rs =>
      refine ⟨by simp [run_scraper_main, hu, hq], ?_, ?_⟩
      · intro q hq'
        exact absurd hq' (by simp)
      · intro rs' _
        simp [run_scraper_main, hu, hq]
    | ok q =>
      refine ⟨?_, ?_, ?_⟩
      · by_cases hr : q.1 = [] <;> simp [run_scraper_main, hu, hq, hr]
      · intro q' hq'
        have hqv : q' = q := (Except.ok.inj hq').symm
        subst hqv
        by_cases hr : q'.1 = []
        · refine ⟨⟨false, false⟩, ?_, ?_, ?_, rfl, ?_⟩ <;>
            simp [run_scraper_main, hu, hq, hr]
        · refine ⟨⟨true, true⟩, ?_, ?_, ?_, rfl, ?_⟩ <;>
            simp [run_scraper_main, hu, hq, hr]
      · intro rs hrs
        exact absurd hrs (by simp)

/-- C7 witness: the amended theorem applied to the crashing run — the
exception exit reports failure once, with no payload and no warning. -/
theorem c7_witness :
    run_scraper_main fCrash cfgPlain [str "u1", str "u2"] =
      ⟨[⟨false, false⟩], false, none⟩ :=
  (c7_completion_report fCrash cfgPlain [str "u1", str "u2"]).2.2
    [[(str "url", some (str "u1"))]] rfl

/-- C8: for a non-empty record list, the serialized table's column order is
`output_columns` with `confidence_score` then `needs_verification` appended
exactly when missing; the rows are the records sorted ascending by source
URL, each projected onto exactly the final columns (so unrequested fields
are omitted). -/
theorem c8_output_columns (records : List Rec) (oc : List Str)
    (hne : records ≠ []) :
    (str "confidence_score" ∈ oc → str "needs_verification" ∈ oc →
      (serializeTable records oc).1 = oc) ∧
    (str "confidence_score" ∈ oc → str "needs_verification" ∉ oc →
      (serializeTable records oc).1 = oc ++ [str "needs_verification"]) ∧
    (str "confidence_score" ∉ oc → str "needs_verification" ∈ oc →
      (serializeTable records oc).1 = oc ++ [str "confidence_score"]) ∧
    (str "confidence_score" ∉ oc → str "needs_verification" ∉ oc →
      (serializeTable records oc).1 =
        oc ++ [str "confidence_score", str "needs_verification"]) ∧
    records.Perm (List.insertionSort urlLe records) ∧
    List.Sorted urlLe (List.insertionSort urlLe records) ∧
    (serializeTable records oc).2 =
      (List.insertionSort urlLe records).map
        (fun r => (serializeTable records oc).1.map (cellOf records r)) := by
  refine ⟨?_, ?_, ?_, ?_, (List.perm_insertionSort urlLe records).symm,
    List.sorted_insertionSort urlLe records, rfl⟩
  · intro h1 h2
    simp [serializeTable, appendIfMissing, h1, h2]
  · intro h1 h2
    simp [serializeTable, appendIfMissing, h1, h2]
  · intro h1 h2
    have hm : str "needs_verification" ∈ oc ++ [str "confidence_score"] := by
      simp [h2]
    simp [serializeTable, appendIfMissing, h1, h2, hm]
  · intro h1 h2
    have hnv : str "needs_verification" ∉ oc ++ [str "confidence_score"] := by
      intro hmem
      rcases List.mem_append.mp hmem with h | h
      · exact h2 h
      · have hcn : str "needs_verification" = str "confidence_score" := by
          simpa using h
        exact absurd hcn (by decide)
    simp [serializeTable, appendIfMissing, h1, hnv, List.append_assoc]

/-- Two assembled records, out of URL order, one carrying an unrequested
field `foo`. -/
def recsOut : List Rec :=
  [[(str "url", some (str "b")), (str "title", some (str "T2")),
    (str "foo", some (str "F"))],
   [(str "url", some (str "a")), (str "title", some (str "T1"))]]

/-- C8 witness: requesting only `url` and `title` appends the two derived
columns at the end. -/
theorem c8_witness :
    (serializeTable recsOut [str "url", str "title"]).1 =
      [str "url", str "title", str "confidence_score", str "needs_verification"] :=
  (c8_output_columns recsOut [str "url", str "title"] (by decide)).2.2.2.1
    (by decide) (by decide)
